import Mathlib

deriving instance DecidableEq for Except

/-!
# Verification of the raft-sqlite storage adapter

A shallow embedding of `sqlite_store.go` from mauri870/raft-sqlite.
The store keeps Raft log entries in a `logs` table
(`idx INTEGER PRIMARY KEY, data BLOB`) and key/value metadata in a `kv`
table (`key TEXT PRIMARY KEY, value BLOB`).  We model both tables as
association lists over byte strings, and each public operation as a pure
function on that state, mirroring the SQL statements the Go code issues.

The `transaction` helper (begin / body / commit-or-rollback) is modelled
separately with explicit error injection for the begin, commit and
rollback steps; the state-level operations below model the healthy-engine
behaviour, where the only query-level failures are the `sql.ErrNoRows`
condition and the UNIQUE-constraint violation of an `INSERT` on a
duplicate primary key — exactly the conditions the Go code branches on.
-/

namespace RaftSqlite

/-- A byte string (BLOB column contents); each element is a byte value. -/
abbrev Bytes := List Nat

/-- The errors the store's code paths distinguish.  `noRows` is
`sql.ErrNoRows`, `uniqueConstraint` is the sqlite UNIQUE-violation of an
`INSERT` on an existing primary key, `logNotFound` is `raft.ErrLogNotFound`,
`keyNotFound` is `ErrKeyNotFound`. -/
inductive Err where
  | noRows
  | uniqueConstraint
  | logNotFound
  | keyNotFound
  deriving DecidableEq, Repr

/-- A Raft log entry (`raft.Log`): index, term, entry type and the opaque
command payload.  Only `Index` is read by the store itself; the rest rides
inside the serialized blob. -/
structure RaftLog where
  index : Nat
  term : Nat
  logType : Nat
  data : Bytes
  deriving DecidableEq, Repr

/-- A log entry whose numeric fields fit in an unsigned 64-bit word, as
they do in Go, where they have type `uint64` (and `Data` is a Go slice,
whose length fits in 64 bits). -/
def RaftLog.wf (l : RaftLog) : Prop :=
  l.index < 2 ^ 64 ∧ l.term < 2 ^ 64 ∧ l.logType < 2 ^ 64 ∧ l.data.length < 2 ^ 64

instance (l : RaftLog) : Decidable l.wf := by
  unfold RaftLog.wf; infer_instance

/-- Modelled from the spec: `uint64ToBytes` lives in a utility file that is
not among the provided sources.  The spec asks for "a fixed-width
big-endian (or explicitly documented) encoding" of an unsigned 64-bit
integer into the byte-string value representation, so we encode the eight
bytes most-significant first. -/
def uint64ToBytes (n : Nat) : Bytes :=
  [n / 2 ^ 56 % 256, n / 2 ^ 48 % 256, n / 2 ^ 40 % 256, n / 2 ^ 32 % 256,
   n / 2 ^ 24 % 256, n / 2 ^ 16 % 256, n / 2 ^ 8 % 256, n % 256]

/-- Modelled from the spec: `bytesToUint64` is the inverse direction of the
fixed-width big-endian convenience encoding, folding the bytes
most-significant first. -/
def bytesToUint64 (b : Bytes) : Nat :=
  b.foldl (fun acc x => acc * 256 + x) 0

/-- Modelled from the spec: `encodeMsgPack` (the opaque-payload
serialization boundary) is in a utility file not among the provided
sources.  The spec requires only "a stable self-describing binary format"
with a byte-for-byte round trip, so we model it as the fixed-width fields
followed by the length-prefixed command payload. -/
def encodeMsgPack (l : RaftLog) : Bytes :=
  uint64ToBytes l.index ++ uint64ToBytes l.term ++ uint64ToBytes l.logType ++
    uint64ToBytes l.data.length ++ l.data

/-- Modelled from the spec: `decodeMsgPack`, the inverse of
`encodeMsgPack`; fails (as the Go decoder can) on a malformed blob. -/
def decodeMsgPack (b : Bytes) : Option RaftLog :=
  if b.length < 32 then none
  else
    let idx := bytesToUint64 (b.take 8)
    let term := bytesToUint64 ((b.drop 8).take 8)
    let ty := bytesToUint64 ((b.drop 16).take 8)
    let len := bytesToUint64 ((b.drop 24).take 8)
    let d := b.drop 32
    if d.length = len then some ⟨idx, term, ty, d⟩ else none

/-- The persistent state: the `logs` table (index to serialized blob) and
the `kv` table (key to value).  Primary-key uniqueness holds in every
reachable state because inserts on an existing key either fail (`logs`)
or replace (`kv`). -/
structure StoreState where
  logs : List (Nat × Bytes)
  kv : List (Bytes × Bytes)
  deriving DecidableEq, Repr

/-- A freshly initialized store: both tables exist and are empty. -/
def emptyStore : StoreState := ⟨[], []⟩

/-- `SELECT data FROM logs WHERE idx = ?`: the row for the given index,
if any (at most one exists, `idx` being the primary key). -/
def selectLog (logs : List (Nat × Bytes)) (i : Nat) : Option Bytes :=
  (logs.find? (fun p => p.1 == i)).map Prod.snd

/-- `INSERT INTO logs (idx, data) VALUES (?, ?)`: fails with a UNIQUE
constraint violation when a row with this index exists; otherwise adds
the row. -/
def insertLog (logs : List (Nat × Bytes)) (i : Nat) (b : Bytes) :
    Except Err (List (Nat × Bytes)) :=
  if logs.any (fun p => p.1 == i) then .error .uniqueConstraint
  else .ok (logs ++ [(i, b)])

/-- The loop body of `StoreLogs`: for each entry, serialize it and run the
`INSERT`.  The Go code assigns the `tx.Exec` error to `err` but never
checks it (sqlite_store.go line 166), so a failed insert leaves the state
as it was and the loop continues; the loop always falls through to
`return nil`. -/
def storeLogsLoop (st : List (Nat × Bytes)) : List RaftLog → List (Nat × Bytes)
  | [] => st
  | l :: rest =>
      let val := encodeMsgPack l
      storeLogsLoop
        (match insertLog st l.index val with
         | .ok st' => st'
         | .error _ => st) rest

/-- `StoreLogs`: run the insert loop inside one transaction.  Because the
per-insert error is dropped, the body never fails and the transaction
always commits. -/
def storeLogs (s : StoreState) (batch : List RaftLog) :
    Except Err Unit × StoreState :=
  (.ok (), { s with logs := storeLogsLoop s.logs batch })

/-- `StoreLog`: delegates to `StoreLogs` with a singleton batch. -/
def storeLog (s : StoreState) (l : RaftLog) : Except Err Unit × StoreState :=
  storeLogs s [l]

/-- `GetLog`: look the blob up by index; `sql.ErrNoRows` is mapped to
`raft.ErrLogNotFound`, then the blob is deserialized. -/
def getLog (s : StoreState) (i : Nat) : Except Err RaftLog :=
  match selectLog s.logs i with
  | none => .error .logNotFound
  | some b =>
      match decodeMsgPack b with
      | some l => .ok l
      | none => .error .noRows

/-- `DELETE FROM logs WHERE idx >= ? AND idx <= ?` wrapped in a
transaction: removes exactly the rows with index in the inclusive range. -/
def deleteRange (s : StoreState) (lo hi : Nat) : Except Err Unit × StoreState :=
  (.ok (), { s with logs := s.logs.filter (fun p => !(lo ≤ p.1 ∧ p.1 ≤ hi)) })

/-- The smallest index present in the `logs` table
(`SELECT idx FROM logs ORDER BY idx ASC LIMIT 1`), or `none` when the
table is empty (`sql.ErrNoRows`). -/
def minIdx : List (Nat × Bytes) → Option Nat
  | [] => none
  | p :: rest =>
      some (match minIdx rest with
            | none => p.1
            | some m => min p.1 m)

/-- The largest index present in the `logs` table
(`SELECT idx FROM logs ORDER BY idx DESC LIMIT 1`), or `none` when the
table is empty (`sql.ErrNoRows`). -/
def maxIdx : List (Nat × Bytes) → Option Nat
  | [] => none
  | p :: rest =>
      some (match maxIdx rest with
            | none => p.1
            | some m => max p.1 m)

/-- `FirstIndex`: the smallest stored index; the `sql.ErrNoRows` condition
of an empty table is mapped to the sentinel result `(0, nil)`. -/
def firstIndex (s : StoreState) : Except Err Nat :=
  match minIdx s.logs with
  | none => .ok 0
  | some i => .ok i

/-- `LastIndex`: the largest stored index; on an empty table the
`sql.ErrNoRows` condition is propagated as an error. -/
def lastIndex (s : StoreState) : Except Err Nat :=
  match maxIdx s.logs with
  | none => .error .noRows
  | some i => .ok i

/-- `INSERT OR REPLACE INTO kv (key, value) VALUES (?, ?)`: sqlite deletes
any conflicting row and inserts the new one. -/
def kvSet (s : StoreState) (k v : Bytes) : Except Err Unit × StoreState :=
  (.ok (), { s with kv := s.kv.filter (fun p => !(p.1 == k)) ++ [(k, v)] })

/-- `Get`: look the value up by key; `sql.ErrNoRows` is mapped to
`ErrKeyNotFound`. -/
def kvGet (s : StoreState) (k : Bytes) : Except Err Bytes :=
  match (s.kv.find? (fun p => p.1 == k)).map Prod.snd with
  | none => .error .keyNotFound
  | some v => .ok v

/-- `SetUint64`: `Set` of the big-endian encoding of the value. -/
def setUint64 (s : StoreState) (k : Bytes) (n : Nat) :
    Except Err Unit × StoreState :=
  kvSet s k (uint64ToBytes n)

/-- `GetUint64`: `Get` followed by the big-endian decoding; an error from
`Get` is returned unchanged (with value 0). -/
def getUint64 (s : StoreState) (k : Bytes) : Except Err Nat :=
  match kvGet s k with
  | .error e => .error e
  | .ok v => .ok (bytesToUint64 v)

/-! ## The transaction helper

`transaction` wraps a body in begin / commit-or-rollback.  Errors coming
from the engine are abstract Go error values; `errors.Join` and the
`fmt.Errorf` wrapping applied to a failed rollback are explicit
constructors, and `GoError.contains` plays the role of `errors.Is`. -/

/-- An abstract Go error value as the helper manipulates it: an engine
error (identified by a number), the wrapping the helper applies to a
failed rollback, and `errors.Join` of two errors. -/
inductive GoError where
  | base : Nat → GoError
  | wrapRollbackFailed : GoError → GoError
  | join : GoError → GoError → GoError
  deriving DecidableEq, Repr

/-- `errors.Is`-style containment: an error contains a target when it is
the target, wraps it, or joins something containing it. -/
def GoError.contains : GoError → GoError → Bool
  | .base n, t => decide (GoError.base n = t)
  | .wrapRollbackFailed inner, t =>
      decide (GoError.wrapRollbackFailed inner = t) || inner.contains t
  | .join a b, t => decide (GoError.join a b = t) || a.contains t || b.contains t

/-- Whether the database transaction was never opened, was left open,
ended in a commit, or ended in a rollback attempt, by the time the helper
returned. -/
inductive TxDisposition where
  | notOpened
  | stillOpen
  | committed
  | rolledBack
  deriving DecidableEq, Repr

/-- The outcomes the engine would hand to the helper's three primitive
calls: a possible error from `Begin`, from `Commit` and from `Rollback`. -/
structure TxEnv where
  beginErr : Option GoError
  commitErr : Option GoError
  rollbackErr : Option GoError
  deriving DecidableEq, Repr

/-- The `transaction` helper: return the `Begin` error if any; otherwise
run the body; on body success return `Commit`'s result; on body failure
attempt `Rollback`, returning the body's error alone when the rollback
succeeds and `errors.Join` of the body's error and the wrapped rollback
error when it also fails.  The body's outcome is its returned error
(`none` meaning success). -/
def transaction (env : TxEnv) (body : Option GoError) :
    Option GoError × TxDisposition :=
  match env.beginErr with
  | some e => (some e, .notOpened)
  | none =>
      match body with
      | none => (env.commitErr, .committed)
      | some err =>
          match env.rollbackErr with
          | none => (some err, .rolledBack)
          | some txerr =>
              (some (.join err (.wrapRollbackFailed txerr)), .rolledBack)

/-! ## Call traces

To talk about what a sequence of public calls leaves in the store we run
lists of operations from the freshly initialized store, and compare the
result against a reference view that keeps the decoded entries
themselves. -/

/-- One mutating call on the log repository. -/
inductive LogOp where
  | store : List RaftLog → LogOp
  | delRange : Nat → Nat → LogOp
  deriving DecidableEq, Repr

/-- Run one log operation, keeping only the resulting state (both
operations always report success in the healthy-engine model). -/
def runLogOp (s : StoreState) : LogOp → StoreState
  | .store batch => (storeLogs s batch).2
  | .delRange lo hi => (deleteRange s lo hi).2

/-- Run a list of log operations left to right. -/
def runLogOps (s : StoreState) (ops : List LogOp) : StoreState :=
  ops.foldl runLogOp s

/-- All entries passed to `store` operations of a trace, in call order. -/
def storedEntries : List LogOp → List RaftLog
  | [] => []
  | .store batch :: rest => batch ++ storedEntries rest
  | .delRange _ _ :: rest => storedEntries rest

/-- The indices of all entries passed to `store` operations of a trace. -/
def storedIndices (ops : List LogOp) : List Nat :=
  (storedEntries ops).map RaftLog.index

/-- The reference view of the log repository: the decoded entries keyed
by index, with `store` appending and `delRange` filtering the inclusive
range — the specification-level meaning of the two operations. -/
def refStep (m : List (Nat × RaftLog)) : LogOp → List (Nat × RaftLog)
  | .store batch => m ++ batch.map (fun l => (l.index, l))
  | .delRange lo hi => m.filter (fun p => !(lo ≤ p.1 ∧ p.1 ≤ hi))

/-- Run a trace on the reference view. -/
def refRun (m : List (Nat × RaftLog)) (ops : List LogOp) :
    List (Nat × RaftLog) :=
  ops.foldl refStep m

/-- Look an entry up in the reference view. -/
def refLookup (m : List (Nat × RaftLog)) (i : Nat) : Option RaftLog :=
  (m.find? (fun p => p.1 == i)).map Prod.snd

/-- The stored blobs corresponding to a reference view. -/
def encMap (m : List (Nat × RaftLog)) : List (Nat × Bytes) :=
  m.map (fun p => (p.1, encodeMsgPack p.2))

/-- Run a list of `Set` calls left to right on the key/value store. -/
def runSets (s : StoreState) : List (Bytes × Bytes) → StoreState
  | [] => s
  | (k, v) :: rest => runSets (kvSet s k v).2 rest

end RaftSqlite
namespace RaftSqlite

theorem bytesToUint64_uint64ToBytes (n : Nat) (h : n < 2 ^ 64) :
    bytesToUint64 (uint64ToBytes n) = n := by
  simp only [bytesToUint64, uint64ToBytes, List.foldl]
  omega

theorem encodeMsgPack_length (l : RaftLog) :
    (encodeMsgPack l).length = 32 + l.data.length := by
  simp [encodeMsgPack, uint64ToBytes]; omega

theorem take8_encode (l : RaftLog) :
    (encodeMsgPack l).take 8 = uint64ToBytes l.index := rfl

theorem decodeMsgPack_encodeMsgPack (l : RaftLog) (h : l.wf) :
    decodeMsgPack (encodeMsgPack l) = some l := by
  obtain ⟨h1, h2, h3, h4⟩ := h
  have hlen : ¬((encodeMsgPack l).length < 32) := by
    rw [encodeMsgPack_length]; omega
  rw [decodeMsgPack, if_neg hlen]
  have t1 : (encodeMsgPack l).take 8 = uint64ToBytes l.index := rfl
  have t2 : ((encodeMsgPack l).drop 8).take 8 = uint64ToBytes l.term := rfl
  have t3 : ((encodeMsgPack l).drop 16).take 8 = uint64ToBytes l.logType := rfl
  have t4 : ((encodeMsgPack l).drop 24).take 8 = uint64ToBytes l.data.length := rfl
  have t5 : (encodeMsgPack l).drop 32 = l.data := rfl
  simp only [t1, t2, t3, t4, t5,
    bytesToUint64_uint64ToBytes _ h1, bytesToUint64_uint64ToBytes _ h2,
    bytesToUint64_uint64ToBytes _ h3, bytesToUint64_uint64ToBytes _ h4]
  simp


theorem find?_filter_none {p q : α → Bool}
    (h : ∀ x, p x = true → q x = false) (xs : List α) :
    (xs.filter q).find? p = none := by
  induction xs with
  | nil => rfl
  | cons x xs ih =>
      by_cases hq : q x = true
      · have hp : p x = false := by
          by_contra hc
          simp at hc
          rw [h x hc] at hq
          exact Bool.false_ne_true hq
        simp [List.filter, hq, List.find?, hp, ih]
      · simp at hq
        simp [List.filter, hq, ih]

theorem find?_filter_eq {p q : α → Bool}
    (h : ∀ x, q x = false → p x = false) (xs : List α) :
    (xs.filter q).find? p = xs.find? p := by
  induction xs with
  | nil => rfl
  | cons x xs ih =>
      by_cases hq : q x = true
      · cases hp : p x
        · simp [List.filter, hq, List.find?, hp, ih]
        · simp [List.filter, hq, List.find?, hp]
      · simp at hq
        simp [List.filter, hq, List.find?, h x hq, ih]

theorem find?_map_pair {β γ : Type} (f : β → γ) (i : Nat)
    (m : List (Nat × β)) :
    (m.map (fun p => (p.1, f p.2))).find? (fun p => p.1 == i) =
      (m.find? (fun p => p.1 == i)).map (fun p => (p.1, f p.2)) := by
  induction m with
  | nil => rfl
  | cons x xs ih =>
      cases hx : (x.1 == i)
      · simp [List.find?, hx, ih]
      · simp [List.find?, hx]


theorem minIdx_spec (logs : List (Nat × Bytes)) (hne : logs ≠ []) :
    ∃ m, minIdx logs = some m ∧ m ∈ logs.map Prod.fst ∧ ∀ p ∈ logs, m ≤ p.1 := by
  induction logs with
  | nil => exact absurd rfl hne
  | cons x xs ih =>
      cases xs with
      | nil => exact ⟨x.1, by simp [minIdx], by simp, by simp⟩
      | cons y ys =>
          obtain ⟨m, hm, hmem, hle⟩ := ih (by simp)
          refine ⟨min x.1 m, by simp only [minIdx, Option.some.injEq] at hm ⊢; rw [hm], ?_, ?_⟩
          · rcases Nat.le_total x.1 m with hle2 | hle2
            · simp [Nat.min_eq_left hle2]
            · rw [Nat.min_eq_right hle2]
              simp only [List.map_cons, List.mem_cons]
              right
              simpa using hmem
          · intro p hp
            rcases List.mem_cons.mp hp with h | h
            · subst h; exact Nat.min_le_left _ _
            · exact le_trans (Nat.min_le_right _ _) (hle p h)

theorem maxIdx_spec (logs : List (Nat × Bytes)) (hne : logs ≠ []) :
    ∃ m, maxIdx logs = some m ∧ m ∈ logs.map Prod.fst ∧ ∀ p ∈ logs, p.1 ≤ m := by
  induction logs with
  | nil => exact absurd rfl hne
  | cons x xs ih =>
      cases xs with
      | nil => exact ⟨x.1, by simp [maxIdx], by simp, by simp⟩
      | cons y ys =>
          obtain ⟨m, hm, hmem, hle⟩ := ih (by simp)
          refine ⟨max x.1 m, by simp only [maxIdx, Option.some.injEq] at hm ⊢; rw [hm], ?_, ?_⟩
          · rcases Nat.le_total x.1 m with hle2 | hle2
            · rw [Nat.max_eq_right hle2]
              simp only [List.map_cons, List.mem_cons]
              right
              simpa using hmem
            · simp [Nat.max_eq_left hle2]
          · intro p hp
            rcases List.mem_cons.mp hp with h | h
            · subst h; exact Nat.le_max_left _ _
            · exact le_trans (hle p h) (Nat.le_max_right _ _)


theorem find?_setList (k : Bytes) (v : Bytes) (xs : List (Bytes × Bytes)) :
    (xs.filter (fun p => !(p.1 == k)) ++ [(k, v)]).find?
        (fun p => p.1 == k) = some (k, v) := by
  induction xs with
  | nil => simp [List.find?]
  | cons x xs ih =>
      cases hx : (x.1 == k)
      · simp only [List.filter, hx]
        simp only [Bool.not_false, List.cons_append, List.find?, hx]
        exact ih
      · simp only [List.filter, hx, Bool.not_true]
        exact ih

theorem kvGet_kvSet (s : StoreState) (k v : Bytes) :
    kvGet (kvSet s k v).2 k = .ok v := by
  simp only [kvGet, kvSet, find?_setList, Option.map_some']

theorem find?_setList_ne (k k1 : Bytes) (v : Bytes) (hne : k1 ≠ k)
    (xs : List (Bytes × Bytes)) :
    (xs.filter (fun p => !(p.1 == k1)) ++ [(k1, v)]).find?
        (fun p => p.1 == k) = xs.find? (fun p => p.1 == k) := by
  induction xs with
  | nil =>
      have hb : (k1 == k) = false := by simpa using hne
      simp [List.find?, hb]
  | cons x xs ih =>
      cases hx : (x.1 == k1)
      · cases hxk : (x.1 == k)
        · simp only [List.filter, hx, Bool.not_false, List.cons_append,
            List.find?, hxk]
          exact ih
        · simp only [List.filter, hx, Bool.not_false, List.cons_append,
            List.find?, hxk]
      · have hxk : (x.1 == k) = false := by
          have h1 : x.1 = k1 := by simpa using hx
          simp [h1, hne]
        simp only [List.filter, hx, Bool.not_true, List.find?, hxk]
        exact ih

theorem kvGet_kvSet_ne (s : StoreState) (k k1 v : Bytes) (hne : k1 ≠ k) :
    kvGet (kvSet s k1 v).2 k = kvGet s k := by
  simp only [kvGet, kvSet, find?_setList_ne k k1 v hne]

theorem kvGet_runSets_notin (sets : List (Bytes × Bytes)) (s : StoreState)
    (k : Bytes) (hk : k ∉ sets.map Prod.fst) :
    kvGet (runSets s sets) k = kvGet s k := by
  induction sets generalizing s with
  | nil => rfl
  | cons x xs ih =>
      simp only [List.map_cons, List.mem_cons] at hk
      push_neg at hk
      obtain ⟨h1, h2⟩ := hk
      cases x with
      | mk k1 v =>
          simp only [runSets]
          rw [ih _ h2, kvGet_kvSet_ne _ _ _ _ (fun h => h1 h.symm)]


theorem storeLogsLoop_fresh (batch : List RaftLog) (st : List (Nat × Bytes))
    (hfresh : ∀ l ∈ batch, ∀ p ∈ st, p.1 ≠ l.index)
    (hnodup : (batch.map RaftLog.index).Nodup) :
    storeLogsLoop st batch =
      st ++ batch.map (fun l => (l.index, encodeMsgPack l)) := by
  induction batch generalizing st with
  | nil => simp [storeLogsLoop]
  | cons l rest ih =>
      have hins : insertLog st l.index (encodeMsgPack l) =
          .ok (st ++ [(l.index, encodeMsgPack l)]) := by
        rw [insertLog, if_neg]
        simp only [List.any_eq_true, not_exists, not_and]
        intro p hp
        simpa using hfresh l (by simp) p hp
      simp only [storeLogsLoop, hins]
      rw [ih]
      · simp
      · intro l2 hl2 p hp
        rcases List.mem_append.mp hp with h | h
        · exact hfresh l2 (by simp [hl2]) p h
        · have hpe : p = (l.index, encodeMsgPack l) := by simpa using h
          subst hpe
          simp only []
          simp only [List.map_cons, List.nodup_cons] at hnodup
          intro hc
          exact hnodup.1 (hc ▸ List.mem_map_of_mem RaftLog.index hl2)
      · simp only [List.map_cons, List.nodup_cons] at hnodup
        exact hnodup.2


theorem storedIndices_store (batch : List RaftLog) (rest : List LogOp) :
    storedIndices (.store batch :: rest) =
      batch.map RaftLog.index ++ storedIndices rest := by
  simp [storedIndices, storedEntries]

theorem storedIndices_del (lo hi : Nat) (rest : List LogOp) :
    storedIndices (.delRange lo hi :: rest) = storedIndices rest := by
  simp [storedIndices, storedEntries]

theorem encMap_append (m n : List (Nat × RaftLog)) :
    encMap (m ++ n) = encMap m ++ encMap n := by
  simp [encMap]

theorem encMap_batch (batch : List RaftLog) :
    encMap (batch.map (fun l => (l.index, l))) =
      batch.map (fun l => (l.index, encodeMsgPack l)) := by
  simp [encMap, List.map_map, Function.comp]

theorem filter_fst_map {β γ : Type} (f : β → γ) (q : Nat → Bool)
    (m : List (Nat × β)) :
    (m.map (fun p => (p.1, f p.2))).filter (fun p => q p.1) =
      (m.filter (fun p => q p.1)).map (fun p => (p.1, f p.2)) := by
  induction m with
  | nil => rfl
  | cons x xs ih =>
      simp only [List.map_cons, List.filter_cons]
      cases hq : q x.1 <;> simp [hq, ih]

theorem encMap_filter (lo hi : Nat) (m : List (Nat × RaftLog)) :
    (encMap m).filter (fun p => !(lo ≤ p.1 ∧ p.1 ≤ hi)) =
      encMap (m.filter (fun p => !(lo ≤ p.1 ∧ p.1 ≤ hi))) :=
  filter_fst_map encodeMsgPack (fun i => !(lo ≤ i ∧ i ≤ hi)) m

theorem runLogOps_sim (ops : List LogOp) (s : StoreState)
    (m : List (Nat × RaftLog)) (seen : List Nat)
    (hlogs : s.logs = encMap m)
    (hkeys : ∀ p ∈ m, p.1 ∈ seen)
    (hdisj : ∀ i ∈ storedIndices ops, i ∉ seen)
    (hnodup : (storedIndices ops).Nodup) :
    (runLogOps s ops).logs = encMap (refRun m ops) ∧
      ∀ p ∈ refRun m ops, p.1 ∈ seen ++ storedIndices ops := by
  induction ops generalizing s m seen with
  | nil =>
      refine ⟨by simpa [runLogOps, refRun] using hlogs, ?_⟩
      intro p hp
      simp only [refRun, List.foldl_nil] at hp
      simp [hkeys p hp]
  | cons op rest ih =>
      cases op with
      | store batch =>
          rw [storedIndices_store] at hdisj hnodup
          rw [List.nodup_append] at hnodup
          obtain ⟨hnb, hnr, hdisj2⟩ := hnodup
          have hfresh : ∀ l ∈ batch, ∀ p ∈ s.logs, p.1 ≠ l.index := by
            intro l hl p hp
            rw [hlogs] at hp
            simp only [encMap, List.mem_map] at hp
            obtain ⟨q, hq, hpq⟩ := hp
            have hseen : p.1 ∈ seen := by
              rw [← hpq]
              exact hkeys q hq
            intro hc
            exact hdisj l.index
              (List.mem_append_left _ (hc ▸ List.mem_map_of_mem RaftLog.index hl))
              (hc ▸ hseen)
          have hloop : (runLogOp s (.store batch)).logs =
              encMap (refStep m (.store batch)) := by
            simp only [runLogOp, storeLogs]
            rw [hlogs, storeLogsLoop_fresh batch _ (by
              intro l hl p hp
              rw [← hlogs] at hp
              exact hfresh l hl p hp) hnb]
            simp only [refStep]
            rw [encMap_append, encMap_batch]
          have ihr := ih (runLogOp s (.store batch))
            (refStep m (.store batch)) (seen ++ batch.map RaftLog.index)
            hloop
            (by
              intro p hp
              simp only [refStep, List.mem_append] at hp
              rcases hp with hp | hp
              · exact List.mem_append_left _ (hkeys p hp)
              · refine List.mem_append_right _ ?_
                simp only [List.mem_map] at hp
                obtain ⟨l, hl, hpl⟩ := hp
                rw [← hpl]
                exact List.mem_map_of_mem RaftLog.index hl)
            (by
              intro i hi
              simp only [List.mem_append]
              push_neg
              exact ⟨fun hc => hdisj i (List.mem_append_right _ hi) hc,
                fun hc => hdisj2 hc hi⟩)
            hnr
          refine ⟨?_, ?_⟩
          · simpa [runLogOps, refRun] using ihr.1
          · intro p hp
            have hp2 : p ∈ refRun (refStep m (.store batch)) rest := by
              simpa [refRun] using hp
            have := ihr.2 p hp2
            rw [storedIndices_store]
            simpa [List.mem_append, or_assoc] using this
      | delRange lo hi =>
          rw [storedIndices_del] at hdisj hnodup
          have hstep : (runLogOp s (.delRange lo hi)).logs =
              encMap (refStep m (.delRange lo hi)) := by
            simp only [runLogOp, deleteRange, refStep]
            rw [hlogs, encMap_filter]
          have ihr := ih (runLogOp s (.delRange lo hi))
            (refStep m (.delRange lo hi)) seen
            hstep
            (by
              intro p hp
              simp only [refStep] at hp
              exact hkeys p (List.mem_of_mem_filter hp))
            hdisj hnodup
          refine ⟨?_, ?_⟩
          · simpa [runLogOps, refRun] using ihr.1
          · intro p hp
            have hp2 : p ∈ refRun (refStep m (.delRange lo hi)) rest := by
              simpa [refRun] using hp
            have := ihr.2 p hp2
            rw [storedIndices_del]
            exact this


theorem refRun_entries (ops : List LogOp) (m : List (Nat × RaftLog))
    (hm : ∀ p ∈ m, p.1 = p.2.index ∧ p.2.wf)
    (hwf : ∀ l ∈ storedEntries ops, l.wf) :
    ∀ p ∈ refRun m ops, p.1 = p.2.index ∧ p.2.wf := by
  induction ops generalizing m with
  | nil => simpa [refRun] using hm
  | cons op rest ih =>
      cases op with
      | store batch =>
          intro p hp
          have hp2 : p ∈ refRun (refStep m (.store batch)) rest := by
            simpa [refRun] using hp
          refine ih (refStep m (.store batch)) ?_ ?_ p hp2
          · intro q hq
            simp only [refStep, List.mem_append] at hq
            rcases hq with hq | hq
            · exact hm q hq
            · simp only [List.mem_map] at hq
              obtain ⟨l, hl, hql⟩ := hq
              rw [← hql]
              exact ⟨rfl, hwf l (by simp [storedEntries, hl])⟩
          · intro l hl
            exact hwf l (by simp [storedEntries, hl])
      | delRange lo hi =>
          intro p hp
          have hp2 : p ∈ refRun (refStep m (.delRange lo hi)) rest := by
            simpa [refRun] using hp
          refine ih (refStep m (.delRange lo hi)) ?_ ?_ p hp2
          · intro q hq
            exact hm q (List.mem_of_mem_filter hq)
          · intro l hl
            exact hwf l (by simpa [storedEntries] using hl)

/-- Claim C3: running any trace of `StoreLog`/`StoreLogs`/`DeleteRange`
calls from a fresh store, with well-formed entries and pairwise-unique
indices across all stores, `GetLog i` returns exactly the entry stored
at index `i` (byte-for-byte, after the serialization round trip) when
that entry is live in the reference view, and fails with the
distinguished `LogNotFound` error when no entry was ever stored at `i`
or the entry at `i` was deleted. -/
theorem getLog_runLogOps (ops : List LogOp) (i : Nat)
    (hwf : ∀ l ∈ storedEntries ops, l.wf)
    (hnodup : (storedIndices ops).Nodup) :
    getLog (runLogOps emptyStore ops) i =
      match refLookup (refRun [] ops) i with
      | some e => .ok e
      | none => .error .logNotFound := by
  obtain ⟨hlogs, _⟩ := runLogOps_sim ops emptyStore [] []
    rfl (by simp) (by simp) hnodup
  have hent := refRun_entries ops [] (by simp) hwf
  rw [getLog, selectLog, hlogs]
  rw [show (encMap (refRun [] ops)) =
    (refRun [] ops).map (fun p => (p.1, encodeMsgPack p.2)) from rfl]
  rw [find?_map_pair]
  cases hf : (refRun [] ops).find? (fun p => p.1 == i) with
  | none => simp [refLookup, hf]
  | some p =>
      have hpm : p ∈ refRun [] ops := List.mem_of_find?_eq_some hf
      have hw := (hent p hpm).2
      simp only [Option.map_some']
      rw [decodeMsgPack_encodeMsgPack p.2 hw]
      simp [refLookup, hf]


theorem GoError.contains_self (e : GoError) : e.contains e = true := by
  cases e <;> simp [GoError.contains]

/-- Claim C9: the `transaction` helper commits exactly when the body
succeeds and rolls back when it fails; when the rollback itself also
fails the returned error contains both the original error and the
rollback error; and no exit path leaves the transaction open. -/
theorem transaction_spec (env : TxEnv) (body : Option GoError) :
    ((transaction env body).2 = .committed ↔
        env.beginErr = none ∧ body = none) ∧
    ((transaction env body).2 = .rolledBack ↔
        env.beginErr = none ∧ body ≠ none) ∧
    (transaction env body).2 ≠ .stillOpen ∧
    ((transaction env body).2 = .committed →
        (transaction env body).1 = env.commitErr) ∧
    (∀ e, env.beginErr = none → body = some e → env.rollbackErr = none →
        (transaction env body).1 = some e) ∧
    (∀ e te, env.beginErr = none → body = some e →
        env.rollbackErr = some te →
        ∃ r, (transaction env body).1 = some r ∧
          r.contains e = true ∧ r.contains te = true) := by
  obtain ⟨b, c, r⟩ := env
  cases b <;> cases body <;> cases r <;>
    simp [transaction, GoError.contains, GoError.contains_self]

/-- Claim C4: `DeleteRange(min, max)` succeeds and deletes exactly the
entries with index in the inclusive interval: afterwards `GetLog` fails
with `LogNotFound` on every index inside the range, while lookups at
indices strictly below or strictly above the range return exactly what
they returned before. -/
theorem deleteRange_spec (s : StoreState) (lo hi i : Nat) :
    (deleteRange s lo hi).1 = .ok () ∧
    (lo ≤ i ∧ i ≤ hi →
      getLog (deleteRange s lo hi).2 i = .error .logNotFound) ∧
    (i < lo ∨ hi < i →
      getLog (deleteRange s lo hi).2 i = getLog s i) := by
  refine ⟨rfl, ?_, ?_⟩
  · intro hin
    have hs : ∀ p : Nat × Bytes, (p.1 == i) = true →
        (!(lo ≤ p.1 ∧ p.1 ≤ hi) : Bool) = false := by
      intro p hp
      have hpi : p.1 = i := by simpa using hp
      simp [hpi, hin.1, hin.2]
    rw [getLog, selectLog, deleteRange]
    rw [find?_filter_none hs]
    rfl
  · intro hout
    have hs : ∀ p : Nat × Bytes, ((!(lo ≤ p.1 ∧ p.1 ≤ hi) : Bool)) = false →
        (p.1 == i) = false := by
      intro p hp
      simp only [Bool.not_eq_false', decide_eq_true_eq] at hp
      have hne : p.1 ≠ i := by
        rcases hout with h | h <;> omega
      simpa using hne
    rw [getLog, selectLog, deleteRange]
    rw [find?_filter_eq hs]
    rfl

/-- Claim C5: `FirstIndex` returns the sentinel 0 without error on an
empty log, and the smallest stored index on a non-empty log. -/
theorem firstIndex_spec (s : StoreState) :
    (s.logs = [] → firstIndex s = .ok 0) ∧
    (s.logs ≠ [] → ∃ m, firstIndex s = .ok m ∧
      m ∈ s.logs.map Prod.fst ∧ ∀ p ∈ s.logs, m ≤ p.1) := by
  constructor
  · intro h
    rw [firstIndex, h]
    rfl
  · intro h
    obtain ⟨m, hm, hmem, hle⟩ := minIdx_spec s.logs h
    exact ⟨m, by rw [firstIndex, hm], hmem, hle⟩

/-- Claim C6: `LastIndex` propagates the underlying no-rows condition as
an error on an empty log (the documented asymmetry with `FirstIndex`),
and returns the largest stored index on a non-empty log. -/
theorem lastIndex_spec (s : StoreState) :
    (s.logs = [] → lastIndex s = .error .noRows) ∧
    (s.logs ≠ [] → ∃ m, lastIndex s = .ok m ∧
      m ∈ s.logs.map Prod.fst ∧ ∀ p ∈ s.logs, p.1 ≤ m) := by
  constructor
  · intro h
    rw [lastIndex, h]
    rfl
  · intro h
    obtain ⟨m, hm, hmem, hle⟩ := maxIdx_spec s.logs h
    exact ⟨m, by rw [lastIndex, hm], hmem, hle⟩

/-- Claim C7: `Set` succeeds and `Get` after `Set(k, v)` returns `v` from
any prior state, so `Set` has upsert semantics and the last write wins;
`Get` on a key never touched by any `Set` of a trace fails with the
distinguished `KeyNotFound` error. -/
theorem kv_spec :
    (∀ s k v, (kvSet s k v).1 = .ok () ∧ kvGet (kvSet s k v).2 k = .ok v) ∧
    (∀ s k v1 v2, kvGet (kvSet (kvSet s k v1).2 k v2).2 k = .ok v2) ∧
    (∀ sets k, k ∉ sets.map Prod.fst →
      kvGet (runSets emptyStore sets) k = .error .keyNotFound) := by
  refine ⟨fun s k v => ⟨rfl, kvGet_kvSet s k v⟩,
    fun s k v1 v2 => kvGet_kvSet _ k v2, fun sets k hk => ?_⟩
  rw [kvGet_runSets_notin sets emptyStore k hk]
  rfl

/-- Claim C8: `SetUint64` stores the value through the same byte-string
representation used by `Set` (the fixed-width 8-byte big-endian
encoding), `GetUint64` after `SetUint64(k, n)` returns `n` for every
64-bit `n`, and `GetUint64` on a key never set fails with
`KeyNotFound`. -/
theorem uint64_spec :
    (∀ s k n, setUint64 s k n = kvSet s k (uint64ToBytes n)) ∧
    (∀ n, (uint64ToBytes n).length = 8) ∧
    (∀ s k n, n < 2 ^ 64 →
      (setUint64 s k n).1 = .ok () ∧
      getUint64 (setUint64 s k n).2 k = .ok n) ∧
    (∀ sets k, k ∉ sets.map Prod.fst →
      getUint64 (runSets emptyStore sets) k = .error .keyNotFound) := by
  refine ⟨fun s k n => rfl, fun n => rfl, fun s k n hn => ⟨rfl, ?_⟩,
    fun sets k hk => ?_⟩
  · simp only [getUint64, setUint64, kvGet_kvSet]
    rw [bytesToUint64_uint64ToBytes n hn]
  · rw [getUint64, kvGet_runSets_notin sets emptyStore k hk]
    rfl

/-- Claim C10: `StoreLog(e)` is observationally identical to
`StoreLogs([e])` — the Go method delegates, so both the returned error
and the resulting state coincide. -/
theorem storeLog_eq_storeLogs (s : StoreState) (l : RaftLog) :
    storeLog s l = storeLogs s [l] := rfl

/-- Claim C1 fails on the code: evaluating `StoreLogs` at a concrete
failing input.  With an entry already stored at index 1, the batch
`[B, C]` with `B.index = 1`, `C.index = 2` hits a UNIQUE-constraint
failure on `B`'s insert, but the `tx.Exec` error is assigned and never
checked (sqlite_store.go line 166): the call reports success and `C`
alone is committed — neither all-or-nothing visibility nor a non-nil
error. -/
theorem storeLogs_swallowed_error :
    (storeLogs (storeLog emptyStore ⟨1, 0, 0, [7]⟩).2
        [⟨1, 0, 0, [8]⟩, ⟨2, 0, 0, [9]⟩]).1 = .ok () ∧
    getLog (storeLogs (storeLog emptyStore ⟨1, 0, 0, [7]⟩).2
        [⟨1, 0, 0, [8]⟩, ⟨2, 0, 0, [9]⟩]).2 1 = .ok ⟨1, 0, 0, [7]⟩ ∧
    getLog (storeLogs (storeLog emptyStore ⟨1, 0, 0, [7]⟩).2
        [⟨1, 0, 0, [8]⟩, ⟨2, 0, 0, [9]⟩]).2 2 = .ok ⟨2, 0, 0, [9]⟩ := by
  decide

/-- Claim C2 fails on the code: storing a second entry with an
already-used index leaves the first entry unchanged (the `INSERT` fails
at the SQL level, so there is no silent replacement) but `StoreLog`
reports success because the `tx.Exec` error is swallowed
(sqlite_store.go line 166) instead of being returned. -/
theorem storeLog_duplicate_no_error :
    (storeLog (storeLog emptyStore ⟨1, 0, 0, [7]⟩).2 ⟨1, 0, 0, [8]⟩).1 =
        .ok () ∧
    getLog (storeLog (storeLog emptyStore ⟨1, 0, 0, [7]⟩).2
        ⟨1, 0, 0, [8]⟩).2 1 = .ok ⟨1, 0, 0, [7]⟩ := by
  decide


/-- Witness for claim C3: a concrete trace storing entries at indices 1
and 2 and then deleting index 2; the hypotheses hold by evaluation and
the conclusion is the theorem's, instantiated. -/
theorem getLog_runLogOps_witness :
    (∀ l ∈ storedEntries [LogOp.store [⟨1, 0, 0, [5]⟩, ⟨2, 0, 0, [6]⟩],
        LogOp.delRange 2 2], l.wf) ∧
    (storedIndices [LogOp.store [⟨1, 0, 0, [5]⟩, ⟨2, 0, 0, [6]⟩],
        LogOp.delRange 2 2]).Nodup ∧
    getLog (runLogOps emptyStore [LogOp.store [⟨1, 0, 0, [5]⟩, ⟨2, 0, 0, [6]⟩],
        LogOp.delRange 2 2]) 1 =
      match refLookup (refRun [] [LogOp.store [⟨1, 0, 0, [5]⟩, ⟨2, 0, 0, [6]⟩],
          LogOp.delRange 2 2]) 1 with
      | some e => .ok e
      | none => .error .logNotFound :=
  ⟨by decide, by decide,
    getLog_runLogOps [LogOp.store [⟨1, 0, 0, [5]⟩, ⟨2, 0, 0, [6]⟩],
      LogOp.delRange 2 2] 1 (by decide) (by decide)⟩

/-- Witness for claim C4: deleting the range `[1, 2]` from a store holding
indices 1 and 3 makes index 1 unretrievable and leaves index 3's lookup
unchanged. -/
theorem deleteRange_spec_witness :
    ((1 : Nat) ≤ 1 ∧ (1 : Nat) ≤ 2) ∧ ((2 : Nat) < 3) ∧
    getLog (deleteRange ⟨[(1, [0]), (3, [1])], []⟩ 1 2).2 1 =
      .error .logNotFound ∧
    getLog (deleteRange ⟨[(1, [0]), (3, [1])], []⟩ 1 2).2 3 =
      getLog ⟨[(1, [0]), (3, [1])], []⟩ 3 :=
  ⟨by decide, by decide,
    (deleteRange_spec ⟨[(1, [0]), (3, [1])], []⟩ 1 2 1).2.1 (by decide),
    (deleteRange_spec ⟨[(1, [0]), (3, [1])], []⟩ 1 2 3).2.2 (by decide)⟩

/-- Witness for claim C5: `FirstIndex` on the empty store returns the
sentinel 0, and on a store holding indices 2 and 1 returns a smallest
index. -/
theorem firstIndex_spec_witness :
    firstIndex emptyStore = .ok 0 ∧
    ∃ m, firstIndex ⟨[(2, []), (1, [])], []⟩ = .ok m ∧
      m ∈ (⟨[(2, []), (1, [])], []⟩ : StoreState).logs.map Prod.fst ∧
      ∀ p ∈ (⟨[(2, []), (1, [])], []⟩ : StoreState).logs, m ≤ p.1 :=
  ⟨(firstIndex_spec emptyStore).1 rfl,
    (firstIndex_spec ⟨[(2, []), (1, [])], []⟩).2 (by decide)⟩

/-- Witness for claim C6: `LastIndex` on the empty store propagates the
no-rows error, and on a store holding indices 2 and 1 returns a largest
index. -/
theorem lastIndex_spec_witness :
    lastIndex emptyStore = .error .noRows ∧
    ∃ m, lastIndex ⟨[(2, []), (1, [])], []⟩ = .ok m ∧
      m ∈ (⟨[(2, []), (1, [])], []⟩ : StoreState).logs.map Prod.fst ∧
      ∀ p ∈ (⟨[(2, []), (1, [])], []⟩ : StoreState).logs, p.1 ≤ m :=
  ⟨(lastIndex_spec emptyStore).1 rfl,
    (lastIndex_spec ⟨[(2, []), (1, [])], []⟩).2 (by decide)⟩

/-- Witness for claim C7: a set/get round trip, an overwrite, and a
lookup of a never-set key after one `Set`. -/
theorem kv_spec_witness :
    kvGet (kvSet emptyStore [1] [2]).2 [1] = .ok [2] ∧
    kvGet (kvSet (kvSet emptyStore [1] [2]).2 [1] [3]).2 [1] = .ok [3] ∧
    ([9] : Bytes) ∉ ([([1], [2])] : List (Bytes × Bytes)).map Prod.fst ∧
    kvGet (runSets emptyStore [([1], [2])]) [9] = .error .keyNotFound :=
  ⟨(kv_spec.1 emptyStore [1] [2]).2,
    kv_spec.2.1 emptyStore [1] [2] [3],
    by decide,
    kv_spec.2.2 [([1], [2])] [9] (by decide)⟩

/-- Witness for claim C8: storing 123 under a key and reading it back,
and a never-set key failing with `KeyNotFound`. -/
theorem uint64_spec_witness :
    (123 : Nat) < 2 ^ 64 ∧
    getUint64 (setUint64 emptyStore [1] 123).2 [1] = .ok 123 ∧
    getUint64 (runSets emptyStore [([1], [2])]) [9] = .error .keyNotFound :=
  ⟨by decide,
    (uint64_spec.2.2.1 emptyStore [1] 123 (by decide)).2,
    uint64_spec.2.2.2 [([1], [2])] [9] (by decide)⟩

/-- Witness for claim C9: a body failing with error 1 while the rollback
fails with error 2 ends in a rollback whose returned error contains
both. -/
theorem transaction_spec_witness :
    (transaction ⟨none, none, some (.base 2)⟩ (some (.base 1))).2 =
      .rolledBack ∧
    ∃ r, (transaction ⟨none, none, some (.base 2)⟩ (some (.base 1))).1 =
        some r ∧
      r.contains (.base 1) = true ∧ r.contains (.base 2) = true :=
  ⟨(transaction_spec ⟨none, none, some (.base 2)⟩
      (some (.base 1))).2.1.mpr ⟨rfl, by decide⟩,
    (transaction_spec ⟨none, none, some (.base 2)⟩
      (some (.base 1))).2.2.2.2.2 (.base 1) (.base 2) rfl rfl rfl⟩

end RaftSqlite
